import Mathlib

/-!
# Verification of the pyproxy-async crawl engine (`src/app/ip_get.py`)

A shallow embedding of the crawl engine: the dedup/forward sink
(`IPGet.push_to_pool`), the per-page fetch (`IPGet.crawl_single_page`
under the `@retry` wrapper), the per-source page loop (`IPGet.crawl_site`),
the crawl pass (`IPGet.start_crawl`), the parse boundary
(`IPGet.parse_site`, `IPGet.save_parse_result`, `IPGet.show_result`) and
the test-mode entry point (`IPGet.test_crawl`).

External collaborators (Redis, `IPChecker.push_to_pool`, the HTTP
transport, `IPFactory.get_random_ip`) are modelled as an environment of
`Except`-valued functions; Python exceptions become the `Exc` type and
`Except Exc` results; the Redis sorted set behind the IP pool is an
association list from address to score.  Side effects observable in the
spec (sleeps, log lines, forwarding calls) are recorded as a trace of
`Ev` events.
-/

namespace IPGet

/-- Python exceptions relevant to the engine: `lib.exceptions` defines
`EmptyResponseException`, `RetryException` (which is raised
`from` a causing exception) and `MaxRetryException`; every other
exception is modelled as `err` with a message. -/
inductive Exc where
  | emptyResponse (msg : String)
  | retryExc (cause : Exc)
  | maxRetryExc
  | err (msg : String)
  deriving DecidableEq, Repr

/-- An element of a parser's result list: either a `SiteResponseData`
(whose `to_str()` is the address string) or any other value, which
`save_parse_result` / `show_result` skip via their `isinstance` check. -/
inductive ResultItem where
  | data (s : String)
  | other
  deriving DecidableEq, Repr

/-- Addresses are strings (`host:port`). -/
abbrev Addr := String

/-- The Redis sorted set at `Config.REDIS_KEY_IP_POOL`, as an association
list from member address to score. -/
abbrev Pool := List (Addr × Int)

/-- `redis.zscore`: the score of `a` in the pool, or `none` when absent. -/
def zscore : Pool → Addr → Option Int
  | [], _ => none
  | (b, s) :: rest, a => if b = a then some s else zscore rest a

/-- `redis.zadd`: update the score of an existing member, otherwise
append the member with the given score. -/
def zadd (p : Pool) (s : Int) (a : Addr) : Pool :=
  if (zscore p a).isSome then
    p.map (fun e => if e.1 = a then (a, s) else e)
  else
    p ++ [(a, s)]

/-- The raw response wrapper `SiteResponse`: body text plus the URL it
was fetched from. -/
structure SiteResponse where
  text : String
  url : String
  deriving DecidableEq, Repr

/-- A source parser, as registered through `@IPGet.parse(name)`: a
function from the response to a result list, which may raise. -/
abbrev Parser := SiteResponse → Except Exc (List ResultItem)

/-- The parser registry `IPGet._parsers`, keyed by site key. -/
abbrev Parsers := String → Option Parser

/-- The fields of `lib.structs.SiteData` the engine reads. -/
structure SiteData where
  key : String
  enabled : Bool
  pages : List String
  use_proxy : Bool
  page_interval : Nat
  deriving DecidableEq, Repr

/-- The external world: the behaviour of each collaborator crossed by the
engine, each of which may raise.

* `default_score` is `Config.DEFAULT_SCORE`, the default pool insertion
  score.
* `get_random_ip b` is `IPFactory.get_random_ip(b)` (already converted
  through `.to_http()` when a proxy is returned).
* `http_get page proxy` is `session.get(page, proxy=proxy)` together
  with the body read `await resp.text()`.
* `zscoreE` / `zaddE` are the Redis round-trips, which on success behave
  like `zscore` / `zadd` but may raise instead.
* `checkerPush` is the forwarding call `IPChecker.push_to_pool`. -/
structure Env where
  default_score : Int
  get_random_ip : Bool → Except Exc (Option String)
  http_get : String → Option String → Except Exc String
  zscoreE : Pool → Addr → Except Exc (Option Int)
  zaddE : Pool → Int → Addr → Except Exc Pool
  checkerPush : List Addr → Except Exc Unit

/-- Observable events: page-visit loop iterations, invocations of the
wrapped single-page fetch, pacing sleeps, the log lines of the engine,
forwarding calls, and test-mode result display. -/
inductive Ev where
  | pageVisit (page : String)
  | fetchAttempt (page : String)
  | sleepPage (interval : Nat)
  | logMaxRetrySkip (page : String)
  | logPageError (page : String)
  | logParseError
  | logNewIp (n : Nat)
  | logSendIp (n : Nat)
  | forward (ips : List Addr)
  | showResult (url : String) (ips : List String)
  | visitSite (key : String)
  deriving DecidableEq, Repr

/-- The per-address loop of `push_to_pool`: look up each address, skip
those already in the pool, `zadd` the rest with the default score and
accumulate them into `needs_ip`.  Redis errors abort the loop; the pool
mutations already performed persist. -/
def pushLoop (env : Env) (pool : Pool) : List Addr → Pool × Except Exc (List Addr)
  | [] => (pool, .ok [])
  | ip :: rest =>
    match env.zscoreE pool ip with
    | .error e => (pool, .error e)
    | .ok (some _) => pushLoop env pool rest
    | .ok none =>
      match env.zaddE pool env.default_score ip with
      | .error e => (pool, .error e)
      | .ok pool' =>
        match pushLoop env pool' rest with
        | (p, .ok needs) => (p, .ok (ip :: needs))
        | (p, .error e) => (p, .error e)

/-- `IPGet.push_to_pool(ips)`: dedup the batch against the pool, insert
the new addresses, forward the non-empty `needs_ip` batch to
`IPChecker.push_to_pool` in one call, log the new-address count, and
return `len(ips)`.  The returned trace records the forwarding call (if
reached) and the log line (if reached). -/
def push_to_pool (env : Env) (pool : Pool) (ips : List Addr) :
    Pool × List Ev × Except Exc Nat :=
  match pushLoop env pool ips with
  | (p, .error e) => (p, [], .error e)
  | (p, .ok needs) =>
    if needs.isEmpty then
      (p, [Ev.logSendIp needs.length], .ok ips.length)
    else
      match env.checkerPush needs with
      | .error e => (p, [Ev.forward needs], .error e)
      | .ok _ => (p, [Ev.forward needs, Ev.logSendIp needs.length], .ok ips.length)

/-- An environment whose Redis and forwarding calls never raise and
behave as the plain pool operations. -/
def honest (ds : Int) (gri : Bool → Except Exc (Option String))
    (hg : String → Option String → Except Exc String) : Env where
  default_score := ds
  get_random_ip := gri
  http_get := hg
  zscoreE := fun p a => .ok (zscore p a)
  zaddE := fun p s a => .ok (zadd p s a)
  checkerPush := fun _ => .ok ()

/-- The strings of the `SiteResponseData` items of a parse result
(`item.to_str()` for each item passing the `isinstance` check). -/
def resultStrs (result : List ResultItem) : List Addr :=
  result.filterMap (fun it => match it with | .data s => some s | .other => none)

/-- `IPGet.save_parse_result(result)`: collect the `to_str()` of the
conforming items; when non-empty, log the count and push the batch to
the pool. -/
def save_parse_result (env : Env) (pool : Pool) (result : List ResultItem) :
    Pool × List Ev × Except Exc Unit :=
  let ips := resultStrs result
  if ips.isEmpty then (pool, [], .ok ())
  else
    match push_to_pool env pool ips with
    | (p, evs, .error e) => (p, Ev.logNewIp ips.length :: evs, .error e)
    | (p, evs, .ok _) => (p, Ev.logNewIp ips.length :: evs, .ok ())

/-- `IPGet.show_result(resp, result)`: log the URL and each conforming
item; used in test model instead of saving. -/
def show_result (resp : SiteResponse) (result : List ResultItem) : List Ev :=
  [Ev.showResult resp.url (resultStrs result)]

/-- `IPGet.parse_site(site, resp)`: look up the parser for the site key
(silent no-op when absent); run it, then save (production) or display
(test model) the result; any exception from the parser or from saving is
caught and logged, never propagated — hence the return type carries no
`Except`. -/
def parse_site (ps : Parsers) (env : Env) (test_model : Bool) (pool : Pool)
    (siteKey : String) (resp : SiteResponse) : Pool × List Ev :=
  match ps siteKey with
  | none => (pool, [])
  | some parser =>
    match parser resp with
    | .error _ => (pool, [Ev.logParseError])
    | .ok result =>
      if !test_model then
        match save_parse_result env pool result with
        | (p, evs, .ok _) => (p, evs)
        | (p, evs, .error _) => (p, evs ++ [Ev.logParseError])
      else (pool, show_result resp result)

/-- One invocation of the body of `IPGet.crawl_single_page`: proxy
selection (outside the `try`), then — inside the `try` — the GET and
body read, the empty-body check, response wrapping and the dispatch to
`parse_site`; any exception inside the `try` is logged and re-raised as
`RetryException() from e`. -/
def crawl_single_page_once (ps : Parsers) (env : Env) (test_model : Bool)
    (site : SiteData) (page : String) (pool : Pool) :
    Pool × List Ev × Except Exc Unit :=
  match (if site.use_proxy then env.get_random_ip (page.startsWith "https") else .ok none) with
  | .error e => (pool, [], .error e)
  | .ok proxy =>
    match env.http_get page proxy with
    | .error e => (pool, [Ev.logPageError page], .error (.retryExc e))
    | .ok text =>
      if text = "" then
        (pool, [Ev.logPageError page], .error (.retryExc (.emptyResponse "empty text")))
      else
        let resp : SiteResponse := { text := text, url := page }
        let (p, evs) := parse_site ps env test_model pool site.key resp
        (p, evs, .ok ())

/-- Modelled from the spec: the failure classification of the `@retry`
wrapper from `lib.func` (not under `src/`): the generic retryable
failure signal (`RetryException`) and the empty-response failure are
retryable; everything else is terminal. -/
def isRetryable : Exc → Bool
  | .retryExc _ => true
  | .emptyResponse _ => true
  | _ => false

/-- Modelled from the spec: the attempt budget of the `@retry` wrapper
from `lib.func` (not under `src/`): "a fixed small budget, e.g. 3
attempts including the first". -/
def MAX_RETRY_COUNT : Nat := 3

/-- Modelled from the spec: the retry loop of the `@retry` wrapper from
`lib.func` (not under `src/`): invoke the wrapped operation; re-invoke
on a retryable failure until the attempt budget is exhausted, then raise
`MaxRetryException`; let a non-retryable failure propagate immediately.
Each invocation is recorded as a `fetchAttempt` event. -/
def retryGo (ps : Parsers) (env : Env) (test_model : Bool) (site : SiteData)
    (page : String) : Nat → Pool → Pool × List Ev × Except Exc Unit
  | 0, pool => (pool, [], .error .maxRetryExc)
  | budget + 1, pool =>
    match crawl_single_page_once ps env test_model site page pool with
    | (p, evs, .ok u) => (p, Ev.fetchAttempt page :: evs, .ok u)
    | (p, evs, .error e) =>
      if isRetryable e then
        match retryGo ps env test_model site page budget p with
        | (p', evs', r) => (p', (Ev.fetchAttempt page :: evs) ++ evs', r)
      else (p, Ev.fetchAttempt page :: evs, .error e)

/-- `IPGet.crawl_single_page` as called by the page loop: the single
attempt body wrapped by `@retry()` with the default budget. -/
def crawl_single_page (ps : Parsers) (env : Env) (test_model : Bool)
    (site : SiteData) (page : String) (pool : Pool) :
    Pool × List Ev × Except Exc Unit :=
  retryGo ps env test_model site page MAX_RETRY_COUNT pool

/-- The page loop of `IPGet.crawl_site`: for each page, visit it through
the retried fetch; catch `MaxRetryException` (log and continue with the
next page); the `finally` block sleeps for the pacing interval when it
is nonzero, also when another exception is about to propagate.  A
propagating exception ends the loop and is returned as `some e`. -/
def crawl_site_pages (ps : Parsers) (env : Env) (test_model : Bool)
    (site : SiteData) : List String → Pool → Pool × List Ev × Option Exc
  | [], pool => (pool, [], none)
  | page :: rest, pool =>
    let sleepEvs := if site.page_interval ≠ 0 then [Ev.sleepPage site.page_interval] else []
    match crawl_single_page ps env test_model site page pool with
    | (p, evs, .ok _) =>
      match crawl_site_pages ps env test_model site rest p with
      | (p', evs', exc) => (p', (Ev.pageVisit page :: evs) ++ sleepEvs ++ evs', exc)
    | (p, evs, .error .maxRetryExc) =>
      match crawl_site_pages ps env test_model site rest p with
      | (p', evs', exc) =>
        (p', (Ev.pageVisit page :: evs) ++ [Ev.logMaxRetrySkip page] ++ sleepEvs ++ evs', exc)
    | (p, evs, .error e) => (p, (Ev.pageVisit page :: evs) ++ sleepEvs, some e)

/-- `IPGet.crawl_site(site, page_limit)`: visit the site's pages — all
of them when `page_limit` is `0`, else the first `page_limit` — through
the page loop. -/
def crawl_site (ps : Parsers) (env : Env) (test_model : Bool) (site : SiteData)
    (page_limit : Nat) (pool : Pool) : Pool × List Ev × Option Exc :=
  let pages := if page_limit = 0 then site.pages else site.pages.take page_limit
  crawl_site_pages ps env test_model site pages pool

/-- `IPGet.start_crawl`: one crawl pass — visit every enabled configured
site in order with no page limit; an exception escaping a site's visit
aborts the pass. -/
def start_crawl (ps : Parsers) (env : Env) (test_model : Bool) :
    List SiteData → Pool → Pool × List Ev × Option Exc
  | [], pool => (pool, [], none)
  | site :: rest, pool =>
    if site.enabled then
      match crawl_site ps env test_model site 0 pool with
      | (p, evs, none) =>
        match start_crawl ps env test_model rest p with
        | (p', evs', exc) => (p', (Ev.visitSite site.key :: evs) ++ evs', exc)
      | (p, evs, some e) => (p, Ev.visitSite site.key :: evs, some e)
    else start_crawl ps env test_model rest pool

/-- The engine state held by the shared `IPGet` instance: the
`_test_model` flag.  The parser registry and the site configs are
registered at bootstrap and never mutated while crawling, so they are
parameters rather than state. -/
structure EngineState where
  test_model : Bool
  deriving DecidableEq, Repr

/-- `IPGet.test_crawl(key, page_limit)`: set `_test_model = True` on the
shared instance, then crawl the configured site of that key with the
page limit. -/
def test_crawl (ps : Parsers) (env : Env) (configs : List SiteData)
    (st : EngineState) (key : String) (page_limit : Nat) (pool : Pool) :
    EngineState × Pool × List Ev :=
  let st' : EngineState := { st with test_model := true }
  match configs.find? (fun s => s.key = key) with
  | none => (st', pool, [])
  | some site =>
    match crawl_site ps env st'.test_model site page_limit pool with
    | (p, evs, _) => (st', p, evs)

/-- The operations invokable on the shared engine instance after
bootstrap: the test-mode entry point and a crawl pass (one iteration of
the polling loop's body). -/
inductive EngineOp where
  | opTestCrawl (key : String) (page_limit : Nat)
  | opStartCrawl
  deriving DecidableEq, Repr

/-- Apply one engine operation to the engine state and the pool. -/
def applyOp (ps : Parsers) (env : Env) (configs : List SiteData)
    (st : EngineState) (pool : Pool) : EngineOp → EngineState × Pool × List Ev
  | .opTestCrawl key limit => test_crawl ps env configs st key limit pool
  | .opStartCrawl =>
    match start_crawl ps env st.test_model configs pool with
    | (p, evs, _) => (st, p, evs)

/-- Apply a sequence of engine operations, accumulating the trace. -/
def applyOps (ps : Parsers) (env : Env) (configs : List SiteData) :
    EngineState → Pool → List EngineOp → EngineState × Pool × List Ev
  | st, pool, [] => (st, pool, [])
  | st, pool, op :: ops =>
    match applyOp ps env configs st pool op with
    | (st', p, evs) =>
      match applyOps ps env configs st' p ops with
      | (st'', p', evs') => (st'', p', evs ++ evs')

/-- Is the event a pacing sleep? -/
def isSleepEv : Ev → Bool
  | .sleepPage _ => true
  | _ => false

/-- Is the event a page-loop iteration? -/
def isVisitEv : Ev → Bool
  | .pageVisit _ => true
  | _ => false

/-- Is the event an invocation of the wrapped single-page fetch? -/
def isFetchEv : Ev → Bool
  | .fetchAttempt _ => true
  | _ => false

/-- Is the event a forwarding call (`IPChecker.push_to_pool`)? -/
def isForwardEv : Ev → Bool
  | .forward _ => true
  | _ => false

/-- Count of pacing sleeps in a trace. -/
def countSleep (evs : List Ev) : Nat := evs.countP isSleepEv

/-- Count of page-loop iterations in a trace. -/
def countVisit (evs : List Ev) : Nat := evs.countP isVisitEv

/-- Count of invocations of the wrapped single-page fetch in a trace. -/
def countFetch (evs : List Ev) : Nat := evs.countP isFetchEv

/-- Count of forwarding calls in a trace. -/
def countForward (evs : List Ev) : Nat := evs.countP isForwardEv

/-- The site keys visited in a trace, in order. -/
def visitedSites (evs : List Ev) : List String :=
  evs.filterMap (fun e => match e with | .visitSite k => some k | _ => none)

/-- The per-address loop of `push_to_pool` when no collaborator raises:
the pure dedup/insert pass over the batch, returning the final pool and
the `needs_ip` list.  `pushLoop` over an `honest` environment computes
exactly this (`pushLoop_honest`). -/
def pushLoopPure (ds : Int) (pool : Pool) : List Addr → Pool × List Addr
  | [] => (pool, [])
  | ip :: rest =>
    if (zscore pool ip).isSome then pushLoopPure ds pool rest
    else
      let r := pushLoopPure ds (zadd pool ds ip) rest
      (r.1, ip :: r.2)

/-- Discriminator for results of the single-page fetch body: is the
raised exception the generic retryable wrapper (`RetryException`)? -/
def isWrappedRetry : Except Exc Unit → Bool
  | .error (.retryExc _) => true
  | _ => false

/-- Events that the parse/sink layer can emit, as opposed to the
control events of the page loop, the crawl pass and the retry
wrapper. -/
def isInnerEv : Ev → Bool
  | .pageVisit _ => false
  | .sleepPage _ => false
  | .fetchAttempt _ => false
  | .logMaxRetrySkip _ => false
  | .visitSite _ => false
  | _ => true

/-- Abbreviation for the pacing-sleep trace of one page-loop iteration. -/
def sleepEvs (site : SiteData) : List Ev :=
  if site.page_interval ≠ 0 then [Ev.sleepPage site.page_interval] else []

/-- The parse step neither touches the pool nor forwards anything — the
condition under which a whole crawl is read-only on the pool.  It holds
in test model (`parse_inert_of_test_model`) and when every bound parser
raises on every invocation (`parse_inert_of_broken`). -/
def ParseInert (ps : Parsers) (env : Env) (tm : Bool) : Prop :=
  ∀ (pool : Pool) (k : String) (resp : SiteResponse),
    (parse_site ps env tm pool k resp).1 = pool ∧
    countForward (parse_site ps env tm pool k resp).2 = 0

/-- A proxy factory that always reports no proxy available. -/
def griNone : Bool → Except Exc (Option String) := fun _ => .ok none

/-- A proxy factory whose lookup raises. -/
def griFail : Bool → Except Exc (Option String) := fun _ => .error (.err "factory down")

/-- A transport that always returns the same non-empty body. -/
def htOk : String → Option String → Except Exc String :=
  fun _ _ => .ok "<html>1.2.3.4:8080</html>"

/-- A transport that raises on every request. -/
def htFail : String → Option String → Except Exc String :=
  fun _ _ => .error (.err "timeout")

/-- Fully honest environment with default score 10. -/
def envHonest : Env := honest 10 griNone htOk

/-- Environment whose proxy selection raises. -/
def envProxyFail : Env := honest 10 griFail htOk

/-- Environment whose transport raises on every request. -/
def envFetchFail : Env := honest 10 griNone htFail

/-- Environment whose Redis score lookup raises for one particular
address, everything else honest. -/
def envRedisFail : Env :=
  { honest 10 griNone htOk with
    zscoreE := fun p a =>
      if a = "2.2.2.2:80" then .error (.err "redis down") else .ok (zscore p a) }

/-- A parser producing two conforming candidates. -/
def parserTwo : Parser := fun _ => .ok [.data "1.1.1.1:80", .data "2.2.2.2:80"]

/-- A parser that raises on every invocation. -/
def parserBoom : Parser := fun _ => .error (.err "boom")

/-- Registry binding `parserTwo` to source `src1`. -/
def psTwo : Parsers := fun k => if k = "src1" then some parserTwo else none

/-- Registry binding the always-raising parser to source `src1`. -/
def psBoom : Parsers := fun k => if k = "src1" then some parserBoom else none

/-- Source `src1`: two pages, no proxy, pacing interval 1. -/
def siteA : SiteData :=
  { key := "src1", enabled := true, pages := ["http://p1", "http://p2"],
    use_proxy := false, page_interval := 1 }

/-- Source `src1` variant that goes through the proxy factory. -/
def siteProxy : SiteData :=
  { key := "src1", enabled := true, pages := ["https://p1"],
    use_proxy := true, page_interval := 0 }

/-- A concrete response fed to the parse boundary. -/
def respA : SiteResponse := { text := "<html>1.2.3.4:8080</html>", url := "http://p1" }

theorem zscore_append (p : Pool) (a b : Addr) (s : Int) :
    zscore (p ++ [(a, s)]) b =
      if (zscore p b).isSome then zscore p b else if a = b then some s else none := by
  induction p with
  | nil => simp [zscore]
  | cons hd tl ih =>
    obtain ⟨c, t⟩ := hd
    by_cases hc : c = b <;> simp [zscore, hc, ih]

theorem zadd_of_not_mem (p : Pool) (a : Addr) (s : Int) (h : zscore p a = none) :
    zadd p s a = p ++ [(a, s)] := by
  simp [zadd, h]

theorem zscore_zadd_self (p : Pool) (a : Addr) (s : Int) (h : zscore p a = none) :
    zscore (zadd p s a) a = some s := by
  rw [zadd_of_not_mem p a s h, zscore_append]
  simp [h]

theorem zscore_zadd_of_ne (p : Pool) (a b : Addr) (s : Int) (h : zscore p a = none)
    (hne : a ≠ b) : zscore (zadd p s a) b = zscore p b := by
  rw [zadd_of_not_mem p a s h, zscore_append]
  cases hzb : zscore p b <;> simp [hne]

theorem pushLoop_honest (ds : Int) (g : Bool → Except Exc (Option String))
    (hg : String → Option String → Except Exc String) (ips : List Addr) :
    ∀ pool, pushLoop (honest ds g hg) pool ips =
      ((pushLoopPure ds pool ips).1, .ok (pushLoopPure ds pool ips).2) := by
  induction ips with
  | nil => intro pool; simp [pushLoop, pushLoopPure]
  | cons ip rest ih =>
    intro pool
    have ihp := ih pool
    have ihz := ih (zadd pool ds ip)
    simp only [honest] at ihp ihz ⊢
    cases hz : zscore pool ip with
    | some s => simp [pushLoop, pushLoopPure, hz, ihp]
    | none => simp [pushLoop, pushLoopPure, hz, ihz]

theorem pushLoopPure_preserved (ds : Int) (ips : List Addr) :
    ∀ pool a s, zscore pool a = some s →
      zscore (pushLoopPure ds pool ips).1 a = some s ∧
      (pushLoopPure ds pool ips).2.count a = 0 := by
  induction ips with
  | nil => intro pool a s h; simp [pushLoopPure, h]
  | cons ip rest ih =>
    intro pool a s h
    by_cases hz : (zscore pool ip).isSome
    · simpa [pushLoopPure, hz] using ih pool a s h
    · have hz' : zscore pool ip = none := by
        cases hzc : zscore pool ip
        · rfl
        · rw [hzc] at hz; simp at hz
      have hipne : ip ≠ a := by
        intro he; rw [he, h] at hz'; cases hz'
      have hsc : zscore (zadd pool ds ip) a = some s := by
        rw [zscore_zadd_of_ne pool ip a ds hz' hipne]; exact h
      obtain ⟨h1, h2⟩ := ih (zadd pool ds ip) a s hsc
      simp [pushLoopPure, hz, h1, h2, List.count_cons, hipne]

theorem pushLoopPure_new (ds : Int) (ips : List Addr) :
    ∀ pool a, zscore pool a = none → a ∈ ips →
      zscore (pushLoopPure ds pool ips).1 a = some ds ∧
      (pushLoopPure ds pool ips).2.count a = 1 := by
  induction ips with
  | nil => intro pool a _ hm; simp at hm
  | cons ip rest ih =>
    intro pool a h hm
    by_cases hia : ip = a
    · subst hia
      have hz : ¬(zscore pool ip).isSome := by simp [h]
      have hself : zscore (zadd pool ds ip) ip = some ds :=
        zscore_zadd_self pool ip ds h
      obtain ⟨h1, h2⟩ := pushLoopPure_preserved ds rest (zadd pool ds ip) ip ds hself
      simp [pushLoopPure, hz, h1, h2, List.count_cons]
    · have hmr : a ∈ rest := by
        rcases List.mem_cons.mp hm with he | hr
        · exact absurd he.symm hia
        · exact hr
      by_cases hz : (zscore pool ip).isSome
      · obtain ⟨h1, h2⟩ := ih pool a h hmr
        simp [pushLoopPure, hz, h1, h2]
      · have hz' : zscore pool ip = none := by
          cases hzc : zscore pool ip
          · rfl
          · rw [hzc] at hz; simp at hz
        have ha' : zscore (zadd pool ds ip) a = none := by
          rw [zscore_zadd_of_ne pool ip a ds hz' hia]; exact h
        obtain ⟨h1, h2⟩ := ih (zadd pool ds ip) a ha' hmr
        simp [pushLoopPure, hz, h1, h2, List.count_cons, hia]

theorem pushLoopPure_append (ds : Int) (ips : List Addr) :
    ∀ pool : Pool, ∃ ext, (pushLoopPure ds pool ips).1 = pool ++ ext := by
  induction ips with
  | nil => intro pool; exact ⟨[], by simp [pushLoopPure]⟩
  | cons ip rest ih =>
    intro pool
    by_cases hz : (zscore pool ip).isSome
    · obtain ⟨ext, hext⟩ := ih pool
      exact ⟨ext, by simp [pushLoopPure, hz, hext]⟩
    · have hz' : zscore pool ip = none := by
        cases hzc : zscore pool ip
        · rfl
        · rw [hzc] at hz; simp at hz
      obtain ⟨ext, hext⟩ := ih (zadd pool ds ip)
      rw [zadd_of_not_mem pool ip ds hz'] at hext
      refine ⟨(ip, ds) :: ext, ?_⟩
      simp [pushLoopPure, hz, zadd_of_not_mem pool ip ds hz', hext]

theorem pushLoopPure_needs_nil_iff (ds : Int) (ips : List Addr) :
    ∀ pool, (pushLoopPure ds pool ips).2 = [] ↔
      ∀ a ∈ ips, (zscore pool a).isSome := by
  induction ips with
  | nil => intro pool; simp [pushLoopPure]
  | cons ip rest ih =>
    intro pool
    by_cases hz : (zscore pool ip).isSome
    · simp [pushLoopPure, hz, ih pool]
    · simp [pushLoopPure, hz]

theorem push_to_pool_honest (ds : Int) (g : Bool → Except Exc (Option String))
    (hg : String → Option String → Except Exc String) (pool : Pool) (ips : List Addr) :
    push_to_pool (honest ds g hg) pool ips =
      ((pushLoopPure ds pool ips).1,
       (if (pushLoopPure ds pool ips).2.isEmpty then [Ev.logSendIp 0]
        else [Ev.forward (pushLoopPure ds pool ips).2,
              Ev.logSendIp (pushLoopPure ds pool ips).2.length]),
       .ok ips.length) := by
  have hl := pushLoop_honest ds g hg ips pool
  simp only [honest] at hl ⊢
  by_cases he : (pushLoopPure ds pool ips).2.isEmpty
  · have hnil : (pushLoopPure ds pool ips).2 = [] := by
      simpa [List.isEmpty_iff] using he
    simp [push_to_pool, hl, he, hnil]
  · have hne : (pushLoopPure ds pool ips).2 ≠ [] := by
      simpa [List.isEmpty_iff] using he
    simp [push_to_pool, hl, he, hne]

theorem push_events_inner (env : Env) (pool : Pool) (ips : List Addr) :
    ∀ e ∈ (push_to_pool env pool ips).2.1, isInnerEv e = true := by
  intro e he
  rcases hpl : pushLoop env pool ips with ⟨p, r⟩
  simp only [push_to_pool, hpl] at he
  cases r with
  | error ex => simp at he
  | ok needs =>
    by_cases hn : needs.isEmpty
    · simp [hn] at he
      subst he; rfl
    · simp only [hn, if_false, Bool.false_eq_true] at he
      cases hcp : env.checkerPush needs with
      | error ex => rw [hcp] at he; simp at he; subst he; rfl
      | ok u =>
        rw [hcp] at he; simp at he
        rcases he with he | he <;> (subst he; rfl)

theorem save_events_inner (env : Env) (pool : Pool) (result : List ResultItem) :
    ∀ e ∈ (save_parse_result env pool result).2.1, isInnerEv e = true := by
  intro e he
  simp only [save_parse_result] at he
  by_cases hi : (resultStrs result).isEmpty
  · simp [hi] at he
  · have hpe := push_events_inner env pool (resultStrs result)
    rcases hp : push_to_pool env pool (resultStrs result) with ⟨p, evs, r⟩
    rw [hp] at hpe
    simp only at hpe
    simp only [hi, if_false, Bool.false_eq_true, hp] at he
    cases r with
    | error ex =>
      simp at he
      rcases he with he | he
      · subst he; rfl
      · exact hpe e he
    | ok u =>
      simp at he
      rcases he with he | he
      · subst he; rfl
      · exact hpe e he

theorem parse_events_inner (ps : Parsers) (env : Env) (tm : Bool) (pool : Pool)
    (k : String) (resp : SiteResponse) :
    ∀ e ∈ (parse_site ps env tm pool k resp).2, isInnerEv e = true := by
  intro e he
  simp only [parse_site] at he
  cases hp : ps k with
  | none => simp only [hp] at he; simp at he
  | some parser =>
    simp only [hp] at he
    cases hr : parser resp with
    | error ex => simp only [hr] at he; simp at he; subst he; rfl
    | ok result =>
      simp only [hr] at he
      cases tm with
      | true =>
        simp only [Bool.not_true, if_false, Bool.false_eq_true] at he
        simp [show_result] at he
        subst he; rfl
      | false =>
        simp only [Bool.not_false, if_true] at he
        have hse := save_events_inner env pool result
        rcases hs : save_parse_result env pool result with ⟨p, evs, r⟩
        rw [hs] at hse
        simp only at hse
        rw [hs] at he
        cases r with
        | ok u => simp at he; exact hse e he
        | error ex =>
          simp at he
          rcases he with he | he
          · exact hse e he
          · subst he; rfl

theorem once_events_inner (ps : Parsers) (env : Env) (tm : Bool) (site : SiteData)
    (page : String) (pool : Pool) :
    ∀ e ∈ (crawl_single_page_once ps env tm site page pool).2.1, isInnerEv e = true := by
  intro e he
  simp only [crawl_single_page_once] at he
  cases hpr : (if site.use_proxy then env.get_random_ip (page.startsWith "https") else .ok none) with
  | error ex => simp only [hpr] at he; simp at he
  | ok proxy =>
    simp only [hpr] at he
    cases hg : env.http_get page proxy with
    | error ex => simp only [hg] at he; simp at he; subst he; rfl
    | ok text =>
      simp only [hg] at he
      by_cases ht : text = ""
      · simp [ht] at he; subst he; rfl
      · have hpe := parse_events_inner ps env tm pool site.key { text := text, url := page }
        rcases hps : parse_site ps env tm pool site.key { text := text, url := page } with ⟨p, evs⟩
        rw [hps] at hpe
        simp only at hpe
        simp only [ht, if_false, if_neg ht, hps] at he
        exact hpe e he

theorem retryGo_events (ps : Parsers) (env : Env) (tm : Bool) (site : SiteData)
    (page : String) :
    ∀ (n : Nat) (pool : Pool), ∀ e ∈ (retryGo ps env tm site page n pool).2.1,
      isInnerEv e = true ∨ e = Ev.fetchAttempt page := by
  intro n
  induction n with
  | zero => intro pool e he; simp [retryGo] at he
  | succ m ih =>
    intro pool e he
    have hoe := once_events_inner ps env tm site page pool
    rcases ho : crawl_single_page_once ps env tm site page pool with ⟨p, evs, r⟩
    rw [ho] at hoe
    simp only at hoe
    simp only [retryGo, ho] at he
    cases r with
    | ok u =>
      simp at he
      rcases he with he | he
      · right; exact he
      · left; exact hoe e he
    | error ex =>
      by_cases hre : isRetryable ex
      · simp only [hre, if_true] at he
        rcases hgo : retryGo ps env tm site page m p with ⟨p', evs', r'⟩
        rw [hgo] at he
        simp at he
        rcases he with he | he | he
        · right; exact he
        · left; exact hoe e he
        · have := ih p e (by rw [hgo]; simpa using he)
          exact this
      · simp only [hre, if_false, Bool.false_eq_true] at he
        simp at he
        rcases he with he | he
        · right; exact he
        · left; exact hoe e he

theorem not_sleep_of_inner {e : Ev} (h : isInnerEv e = true) : isSleepEv e = false := by
  cases e <;> simp_all [isInnerEv, isSleepEv]

theorem not_visit_of_inner {e : Ev} (h : isInnerEv e = true) : isVisitEv e = false := by
  cases e <;> simp_all [isInnerEv, isVisitEv]

theorem not_fetch_of_inner {e : Ev} (h : isInnerEv e = true) : isFetchEv e = false := by
  cases e <;> simp_all [isInnerEv, isFetchEv]

theorem not_site_of_inner {e : Ev} (h : isInnerEv e = true) :
    (match e with | Ev.visitSite k => some k | _ => none) = none := by
  cases e <;> simp_all [isInnerEv]

theorem retryGo_no_loop_events (ps : Parsers) (env : Env) (tm : Bool) (site : SiteData)
    (page : String) (n : Nat) (pool : Pool) :
    countSleep (retryGo ps env tm site page n pool).2.1 = 0 ∧
    countVisit (retryGo ps env tm site page n pool).2.1 = 0 ∧
    visitedSites (retryGo ps env tm site page n pool).2.1 = [] := by
  refine ⟨?_, ?_, ?_⟩
  · rw [countSleep, List.countP_eq_zero]
    intro e he
    rcases retryGo_events ps env tm site page n pool e he with hi | hf
    · simp [not_sleep_of_inner hi]
    · subst hf; simp [isSleepEv]
  · rw [countVisit, List.countP_eq_zero]
    intro e he
    rcases retryGo_events ps env tm site page n pool e he with hi | hf
    · simp [not_visit_of_inner hi]
    · subst hf; simp [isVisitEv]
  · rw [visitedSites, List.filterMap_eq_nil_iff]
    intro e he
    rcases retryGo_events ps env tm site page n pool e he with hi | hf
    · exact not_site_of_inner hi
    · subst hf; rfl

theorem once_count_fetch (ps : Parsers) (env : Env) (tm : Bool) (site : SiteData)
    (page : String) (pool : Pool) :
    countFetch (crawl_single_page_once ps env tm site page pool).2.1 = 0 := by
  rw [countFetch, List.countP_eq_zero]
  intro e he
  simp [not_fetch_of_inner (once_events_inner ps env tm site page pool e he)]

theorem crawl_site_pages_cons_ok (ps : Parsers) (env : Env) (tm : Bool) (site : SiteData)
    (page : String) (rest : List String) (pool p : Pool) (evs : List Ev) (u : Unit)
    (hcs : crawl_single_page ps env tm site page pool = (p, evs, .ok u)) :
    crawl_site_pages ps env tm site (page :: rest) pool =
      ((crawl_site_pages ps env tm site rest p).1,
       (Ev.pageVisit page :: evs) ++ sleepEvs site ++ (crawl_site_pages ps env tm site rest p).2.1,
       (crawl_site_pages ps env tm site rest p).2.2) := by
  rcases hr : crawl_site_pages ps env tm site rest p with ⟨p', evs', exc⟩
  simp [crawl_site_pages, hcs, hr, sleepEvs]

theorem crawl_site_pages_cons_max (ps : Parsers) (env : Env) (tm : Bool) (site : SiteData)
    (page : String) (rest : List String) (pool p : Pool) (evs : List Ev)
    (hcs : crawl_single_page ps env tm site page pool = (p, evs, .error .maxRetryExc)) :
    crawl_site_pages ps env tm site (page :: rest) pool =
      ((crawl_site_pages ps env tm site rest p).1,
       (Ev.pageVisit page :: evs) ++ [Ev.logMaxRetrySkip page] ++ sleepEvs site ++
         (crawl_site_pages ps env tm site rest p).2.1,
       (crawl_site_pages ps env tm site rest p).2.2) := by
  rcases hr : crawl_site_pages ps env tm site rest p with ⟨p', evs', exc⟩
  simp [crawl_site_pages, hcs, hr, sleepEvs]

theorem crawl_site_pages_cons_err (ps : Parsers) (env : Env) (tm : Bool) (site : SiteData)
    (page : String) (rest : List String) (pool p : Pool) (evs : List Ev) (e : Exc)
    (hcs : crawl_single_page ps env tm site page pool = (p, evs, .error e))
    (hne : e ≠ .maxRetryExc) :
    crawl_site_pages ps env tm site (page :: rest) pool =
      (p, (Ev.pageVisit page :: evs) ++ sleepEvs site, some e) := by
  cases e with
  | maxRetryExc => exact absurd rfl hne
  | emptyResponse m => simp [crawl_site_pages, hcs, sleepEvs]
  | retryExc c => simp [crawl_site_pages, hcs, sleepEvs]
  | err m => simp [crawl_site_pages, hcs, sleepEvs]

theorem countSleep_append (l1 l2 : List Ev) :
    countSleep (l1 ++ l2) = countSleep l1 + countSleep l2 := List.countP_append _ _ _

theorem countVisit_append (l1 l2 : List Ev) :
    countVisit (l1 ++ l2) = countVisit l1 + countVisit l2 := List.countP_append _ _ _

theorem countFetch_append (l1 l2 : List Ev) :
    countFetch (l1 ++ l2) = countFetch l1 + countFetch l2 := List.countP_append _ _ _

theorem countForward_append (l1 l2 : List Ev) :
    countForward (l1 ++ l2) = countForward l1 + countForward l2 := List.countP_append _ _ _

theorem visitedSites_append (l1 l2 : List Ev) :
    visitedSites (l1 ++ l2) = visitedSites l1 ++ visitedSites l2 := List.filterMap_append _ _ _

theorem sleepEvs_counts (site : SiteData) :
    countVisit (sleepEvs site) = 0 ∧ visitedSites (sleepEvs site) = [] ∧
    countSleep (sleepEvs site) = (if site.page_interval ≠ 0 then 1 else 0) ∧
    countFetch (sleepEvs site) = 0 ∧ countForward (sleepEvs site) = 0 := by
  by_cases h : site.page_interval ≠ 0 <;>
    simp [sleepEvs, h, countVisit, countSleep, countFetch, countForward, visitedSites,
      isVisitEv, isSleepEv, isFetchEv, isForwardEv]

theorem once_ok_or_wrapped (ps : Parsers) (env : Env) (tm : Bool) (site : SiteData)
    (page : String) (pool : Pool)
    (hproxy : site.use_proxy = true → ∃ o, env.get_random_ip (page.startsWith "https") = .ok o) :
    (crawl_single_page_once ps env tm site page pool).2.2 = .ok () ∨
    ∃ c, (crawl_single_page_once ps env tm site page pool).2.2 = .error (.retryExc c) := by
  have hsel : ∃ proxy,
      (if site.use_proxy then env.get_random_ip (page.startsWith "https") else Except.ok none) =
        .ok proxy := by
    cases hup : site.use_proxy
    · exact ⟨none, by simp [hup]⟩
    · obtain ⟨o, ho⟩ := hproxy hup
      exact ⟨o, by simp [hup, ho]⟩
  obtain ⟨proxy, hpr⟩ := hsel
  simp only [crawl_single_page_once, hpr]
  cases hg : env.http_get page proxy with
  | error e => right; exact ⟨e, by simp⟩
  | ok text =>
    by_cases ht : text = ""
    · subst ht; right; exact ⟨.emptyResponse "empty text", by simp⟩
    · left
      rcases hps : parse_site ps env tm pool site.key { text := text, url := page } with ⟨p, evs⟩
      simp [ht, hps]

theorem retryGo_ok_or_max (ps : Parsers) (env : Env) (tm : Bool) (site : SiteData)
    (page : String)
    (hproxy : site.use_proxy = true → ∃ o, env.get_random_ip (page.startsWith "https") = .ok o) :
    ∀ (n : Nat) (pool : Pool),
      (retryGo ps env tm site page n pool).2.2 = .ok () ∨
      (retryGo ps env tm site page n pool).2.2 = .error .maxRetryExc := by
  intro n
  induction n with
  | zero => intro pool; right; rfl
  | succ m ih =>
    intro pool
    rcases ho : crawl_single_page_once ps env tm site page pool with ⟨p, evs, r⟩
    rcases once_ok_or_wrapped ps env tm site page pool hproxy with hok | ⟨c, hc⟩
    · rw [ho] at hok
      simp only at hok
      left
      simp [retryGo, ho, hok]
    · rw [ho] at hc
      simp only at hc
      subst hc
      rcases hgo : retryGo ps env tm site page m p with ⟨p', evs', r'⟩
      have hr' := ih p
      rw [hgo] at hr'
      simp only at hr'
      simp [retryGo, ho, isRetryable, hgo]
      exact hr'

theorem crawl_site_pages_complete (ps : Parsers) (env : Env) (tm : Bool) (site : SiteData)
    (hproxy : ∀ b, ∃ o, env.get_random_ip b = .ok o) :
    ∀ (pages : List String) (pool : Pool),
      (crawl_site_pages ps env tm site pages pool).2.2 = none ∧
      countVisit (crawl_site_pages ps env tm site pages pool).2.1 = pages.length ∧
      visitedSites (crawl_site_pages ps env tm site pages pool).2.1 = [] := by
  intro pages
  induction pages with
  | nil => intro pool; simp [crawl_site_pages, countVisit, visitedSites]
  | cons page rest ih =>
    intro pool
    rcases hcs : crawl_single_page ps env tm site page pool with ⟨p, evs, r⟩
    have hnl := retryGo_no_loop_events ps env tm site page MAX_RETRY_COUNT pool
    have hrm := retryGo_ok_or_max ps env tm site page (fun _ => hproxy _) MAX_RETRY_COUNT pool
    rw [show retryGo ps env tm site page MAX_RETRY_COUNT pool =
          crawl_single_page ps env tm site page pool from rfl, hcs] at hnl hrm
    simp only at hnl hrm
    obtain ⟨hs0, hv0, hw0⟩ := hnl
    obtain ⟨ih1, ih2, ih3⟩ := ih p
    obtain ⟨sv, sw, _, _, _⟩ := sleepEvs_counts site
    rcases hrm with hok | hmax
    · subst hok
      rw [crawl_site_pages_cons_ok ps env tm site page rest pool p evs () hcs]
      refine ⟨ih1, ?_, ?_⟩
      · simp only [countVisit_append, List.length_cons]
        have h1 : countVisit (Ev.pageVisit page :: evs) = 1 + countVisit evs := by
          simp [countVisit, List.countP_cons, isVisitEv]
          omega
        rw [h1, hv0, sv, ih2]
        omega
      · simp only [visitedSites_append]
        have h1 : visitedSites (Ev.pageVisit page :: evs) = visitedSites evs := by
          simp [visitedSites]
        rw [h1, hw0, sw, ih3]
        simp
    · subst hmax
      rw [crawl_site_pages_cons_max ps env tm site page rest pool p evs hcs]
      refine ⟨ih1, ?_, ?_⟩
      · simp only [countVisit_append, List.length_cons]
        have h1 : countVisit (Ev.pageVisit page :: evs) = 1 + countVisit evs := by
          simp [countVisit, List.countP_cons, isVisitEv]
          omega
        have h2 : countVisit [Ev.logMaxRetrySkip page] = 0 := by
          simp [countVisit, isVisitEv]
        rw [h1, h2, hv0, sv, ih2]
        omega
      · simp only [visitedSites_append]
        have h1 : visitedSites (Ev.pageVisit page :: evs) = visitedSites evs := by
          simp [visitedSites]
        have h2 : visitedSites [Ev.logMaxRetrySkip page] = [] := by
          simp [visitedSites]
        rw [h1, h2, hw0, sw, ih3]
        simp

theorem crawl_site_zero (ps : Parsers) (env : Env) (tm : Bool) (site : SiteData)
    (pool : Pool) :
    crawl_site ps env tm site 0 pool = crawl_site_pages ps env tm site site.pages pool := by
  simp [crawl_site]

theorem start_crawl_complete (ps : Parsers) (env : Env) (tm : Bool)
    (hproxy : ∀ b, ∃ o, env.get_random_ip b = .ok o) :
    ∀ (sites : List SiteData) (pool : Pool),
      (start_crawl ps env tm sites pool).2.2 = none ∧
      visitedSites (start_crawl ps env tm sites pool).2.1 =
        (sites.filter (fun s => s.enabled)).map (fun s => s.key) := by
  intro sites
  induction sites with
  | nil => intro pool; simp [start_crawl, visitedSites]
  | cons site rest ih =>
    intro pool
    cases hen : site.enabled with
    | false =>
      obtain ⟨ih1, ih2⟩ := ih pool
      simp [start_crawl, hen, ih1, ih2]
    | true =>
      have hc := crawl_site_pages_complete ps env tm site hproxy site.pages pool
      rw [← crawl_site_zero ps env tm site pool] at hc
      rcases hcs : crawl_site ps env tm site 0 pool with ⟨p, evs, exc⟩
      rw [hcs] at hc
      simp only at hc
      obtain ⟨hnone, _, hw⟩ := hc
      subst hnone
      rcases hsr : start_crawl ps env tm rest p with ⟨p', evs', exc'⟩
      have ihp := ih p
      rw [hsr] at ihp
      simp only at ihp
      obtain ⟨ih1, ih2⟩ := ihp
      simp only [start_crawl, hen, if_true, hcs, hsr]
      refine ⟨ih1, ?_⟩
      have h1 : visitedSites (Ev.visitSite site.key :: (evs ++ evs')) =
          site.key :: visitedSites (evs ++ evs') := by
        simp [visitedSites]
      simp only [List.cons_append, h1]
      rw [visitedSites_append, hw, ih2]
      simp [hen]

theorem parse_inert_of_test_model (ps : Parsers) (env : Env) :
    ParseInert ps env true := by
  intro pool k resp
  cases hp : ps k with
  | none => simp [parse_site, hp, countForward]
  | some parser =>
    cases hr : parser resp with
    | error ex => simp [parse_site, hp, hr, countForward, isForwardEv]
    | ok result =>
      simp [parse_site, hp, hr, show_result, countForward, isForwardEv]

theorem parse_inert_of_broken (ps : Parsers) (env : Env) (tm : Bool)
    (hbroken : ∀ k parser, ps k = some parser → ∀ r, ∃ e, parser r = .error e) :
    ParseInert ps env tm := by
  intro pool k resp
  cases hp : ps k with
  | none => simp [parse_site, hp, countForward]
  | some parser =>
    obtain ⟨e, he⟩ := hbroken k parser hp resp
    simp [parse_site, hp, he, countForward, isForwardEv]

theorem countForward_cons_not (e : Ev) (l : List Ev) (he : isForwardEv e = false) :
    countForward (e :: l) = countForward l := by
  simp [countForward, List.countP_cons, he]

theorem once_inert {ps : Parsers} {env : Env} {tm : Bool} (h : ParseInert ps env tm)
    (site : SiteData) (page : String) (pool : Pool) :
    (crawl_single_page_once ps env tm site page pool).1 = pool ∧
    countForward (crawl_single_page_once ps env tm site page pool).2.1 = 0 := by
  simp only [crawl_single_page_once]
  cases hpr : (if site.use_proxy then env.get_random_ip (page.startsWith "https") else .ok none) with
  | error ex => simp [countForward]
  | ok proxy =>
    cases hg : env.http_get page proxy with
    | error ex => simp [hg, countForward, isForwardEv]
    | ok text =>
      by_cases ht : text = ""
      · simp [hg, ht, countForward, isForwardEv]
      · obtain ⟨h1, h2⟩ := h pool site.key { text := text, url := page }
        simp only [hg, if_neg ht]
        exact ⟨h1, h2⟩

theorem retryGo_inert {ps : Parsers} {env : Env} {tm : Bool} (h : ParseInert ps env tm)
    (site : SiteData) (page : String) :
    ∀ (n : Nat) (pool : Pool),
      (retryGo ps env tm site page n pool).1 = pool ∧
      countForward (retryGo ps env tm site page n pool).2.1 = 0 := by
  intro n
  induction n with
  | zero => intro pool; simp [retryGo, countForward]
  | succ m ih =>
    intro pool
    obtain ⟨h1, h2⟩ := once_inert h site page pool
    rcases ho : crawl_single_page_once ps env tm site page pool with ⟨p, evs, r⟩
    rw [ho] at h1 h2
    simp only at h1 h2
    cases r with
    | ok u =>
      simp only [retryGo, ho]
      refine ⟨h1, ?_⟩
      rw [countForward_cons_not (Ev.fetchAttempt page) evs rfl]
      exact h2
    | error ex =>
      cases hre : isRetryable ex with
      | true =>
        obtain ⟨ih1, ih2⟩ := ih p
        rcases hgo : retryGo ps env tm site page m p with ⟨p', evs', r'⟩
        rw [hgo] at ih1 ih2
        simp only at ih1 ih2
        simp only [retryGo, ho, hre, if_true, hgo]
        refine ⟨ih1.trans h1, ?_⟩
        rw [List.cons_append, countForward_cons_not (Ev.fetchAttempt page) _ rfl,
          countForward_append, h2, ih2]
      | false =>
        simp only [retryGo, ho, hre, if_false, Bool.false_eq_true]
        refine ⟨h1, ?_⟩
        rw [countForward_cons_not (Ev.fetchAttempt page) evs rfl]
        exact h2

theorem pages_inert {ps : Parsers} {env : Env} {tm : Bool} (h : ParseInert ps env tm)
    (site : SiteData) :
    ∀ (pages : List String) (pool : Pool),
      (crawl_site_pages ps env tm site pages pool).1 = pool ∧
      countForward (crawl_site_pages ps env tm site pages pool).2.1 = 0 := by
  intro pages
  induction pages with
  | nil => intro pool; simp [crawl_site_pages, countForward]
  | cons page rest ih =>
    intro pool
    obtain ⟨h1, h2⟩ := retryGo_inert h site page MAX_RETRY_COUNT pool
    rcases hcs : crawl_single_page ps env tm site page pool with ⟨p, evs, r⟩
    rw [show retryGo ps env tm site page MAX_RETRY_COUNT pool =
          crawl_single_page ps env tm site page pool from rfl, hcs] at h1 h2
    simp only at h1 h2
    rw [h1] at hcs
    obtain ⟨_, _, _, _, sf⟩ := sleepEvs_counts site
    cases r with
    | ok u =>
      obtain ⟨ih1, ih2⟩ := ih pool
      rw [crawl_site_pages_cons_ok ps env tm site page rest pool pool evs u hcs]
      refine ⟨ih1, ?_⟩
      simp only [countForward_append]
      have hc : countForward (Ev.pageVisit page :: evs) = 0 := by
        rw [countForward_cons_not (Ev.pageVisit page) evs rfl]; exact h2
      rw [hc, sf, ih2]
    | error ex =>
      by_cases hmx : ex = Exc.maxRetryExc
      · subst hmx
        obtain ⟨ih1, ih2⟩ := ih pool
        rw [crawl_site_pages_cons_max ps env tm site page rest pool pool evs hcs]
        refine ⟨ih1, ?_⟩
        simp only [countForward_append]
        have hc : countForward (Ev.pageVisit page :: evs) = 0 := by
          rw [countForward_cons_not (Ev.pageVisit page) evs rfl]; exact h2
        have hl : countForward [Ev.logMaxRetrySkip page] = 0 := by
          simp [countForward, isForwardEv]
        rw [hc, hl, sf, ih2]
      · rw [crawl_site_pages_cons_err ps env tm site page rest pool pool evs ex hcs hmx]
        refine ⟨rfl, ?_⟩
        simp only [countForward_append]
        have hc : countForward (Ev.pageVisit page :: evs) = 0 := by
          rw [countForward_cons_not (Ev.pageVisit page) evs rfl]; exact h2
        rw [hc, sf]

theorem start_inert {ps : Parsers} {env : Env} {tm : Bool} (h : ParseInert ps env tm) :
    ∀ (sites : List SiteData) (pool : Pool),
      (start_crawl ps env tm sites pool).1 = pool ∧
      countForward (start_crawl ps env tm sites pool).2.1 = 0 := by
  intro sites
  induction sites with
  | nil => intro pool; simp [start_crawl, countForward]
  | cons site rest ih =>
    intro pool
    cases hen : site.enabled with
    | false => simpa [start_crawl, hen] using ih pool
    | true =>
      obtain ⟨h1, h2⟩ := pages_inert h site site.pages pool
      rw [← crawl_site_zero ps env tm site pool] at h1 h2
      rcases hcs : crawl_site ps env tm site 0 pool with ⟨p, evs, exc⟩
      rw [hcs] at h1 h2
      simp only at h1 h2
      rw [h1] at hcs
      cases exc with
      | none =>
        obtain ⟨ih1, ih2⟩ := ih pool
        rcases hsr : start_crawl ps env tm rest pool with ⟨p', evs', exc'⟩
        rw [hsr] at ih1 ih2
        simp only at ih1 ih2
        simp only [start_crawl, hen, if_true, hcs, hsr]
        refine ⟨ih1, ?_⟩
        have hc : countForward (Ev.visitSite site.key :: (evs ++ evs')) =
            countForward evs + countForward evs' := by
          simp [countForward, List.countP_cons, isForwardEv, List.countP_append]
        simp only [List.cons_append, hc, h2, ih2]
      | some e =>
        simp only [start_crawl, hen, if_true, hcs]
        refine ⟨by simp, ?_⟩
        have hc : countForward (Ev.visitSite site.key :: evs) = countForward evs := by
          simp [countForward, List.countP_cons, isForwardEv]
        rw [hc, h2]

theorem test_crawl_inert (ps : Parsers) (env : Env) (configs : List SiteData)
    (st : EngineState) (key : String) (limit : Nat) (pool : Pool) :
    (test_crawl ps env configs st key limit pool).1.test_model = true ∧
    (test_crawl ps env configs st key limit pool).2.1 = pool ∧
    countForward (test_crawl ps env configs st key limit pool).2.2 = 0 := by
  simp only [test_crawl]
  cases hf : configs.find? (fun s => s.key = key) with
  | none => simp [countForward]
  | some site =>
    have hpi := parse_inert_of_test_model ps env
    obtain ⟨h1, h2⟩ := pages_inert hpi site
      (if limit = 0 then site.pages else site.pages.take limit) pool
    rcases hcs : crawl_site ps env true site limit pool with ⟨p, evs, exc⟩
    rw [show crawl_site_pages ps env true site
          (if limit = 0 then site.pages else site.pages.take limit) pool =
        crawl_site ps env true site limit pool from rfl, hcs] at h1 h2
    simp only at h1 h2
    simp [hcs, h1, h2]

theorem countSleep_cons (e : Ev) (l : List Ev) :
    countSleep (e :: l) = countSleep l + (if isSleepEv e then 1 else 0) := by
  simp [countSleep, List.countP_cons]

theorem countVisit_cons (e : Ev) (l : List Ev) :
    countVisit (e :: l) = countVisit l + (if isVisitEv e then 1 else 0) := by
  simp [countVisit, List.countP_cons]

theorem countFetch_cons (e : Ev) (l : List Ev) :
    countFetch (e :: l) = countFetch l + (if isFetchEv e then 1 else 0) := by
  simp [countFetch, List.countP_cons]

theorem once_always_fails (ps : Parsers) (env : Env) (tm : Bool) (site : SiteData)
    (page : String) (hnp : site.use_proxy = false)
    (hfail : ∀ pr, ∃ e, env.http_get page pr = .error e) (pool : Pool) :
    ∃ e, crawl_single_page_once ps env tm site page pool =
      (pool, [Ev.logPageError page], .error (.retryExc e)) := by
  obtain ⟨e, he⟩ := hfail none
  exact ⟨e, by simp [crawl_single_page_once, hnp, he]⟩

theorem retryGo_exhausts (ps : Parsers) (env : Env) (tm : Bool) (site : SiteData)
    (page : String) (hnp : site.use_proxy = false)
    (hfail : ∀ pr, ∃ e, env.http_get page pr = .error e) :
    ∀ (n : Nat) (pool : Pool),
      countFetch (retryGo ps env tm site page n pool).2.1 = n ∧
      (retryGo ps env tm site page n pool).2.2 = .error .maxRetryExc ∧
      (retryGo ps env tm site page n pool).1 = pool := by
  intro n
  induction n with
  | zero => intro pool; exact ⟨rfl, rfl, rfl⟩
  | succ m ih =>
    intro pool
    obtain ⟨e, he⟩ := once_always_fails ps env tm site page hnp hfail pool
    obtain ⟨ih1, ih2, ih3⟩ := ih pool
    rcases hgo : retryGo ps env tm site page m pool with ⟨p', evs', r'⟩
    rw [hgo] at ih1 ih2 ih3
    simp only at ih1 ih2 ih3
    simp only [retryGo, he, isRetryable, if_true, hgo]
    refine ⟨?_, ih2, ih3⟩
    rw [List.cons_append, countFetch_cons, countFetch_append]
    rw [show countFetch [Ev.logPageError page] = 0 from rfl, ih1,
      show isFetchEv (Ev.fetchAttempt page) = true from rfl]
    simp

theorem retryGo_immediate (ps : Parsers) (env : Env) (tm : Bool) (site : SiteData)
    (page : String) (ex : Exc) (hup : site.use_proxy = true)
    (he : env.get_random_ip (page.startsWith "https") = .error ex)
    (hnr : isRetryable ex = false) :
    ∀ (n : Nat) (pool : Pool), 0 < n →
      retryGo ps env tm site page n pool = (pool, [Ev.fetchAttempt page], .error ex) := by
  intro n pool hn
  cases n with
  | zero => exact absurd hn (by simp)
  | succ m =>
    have ho : crawl_single_page_once ps env tm site page pool = (pool, [], .error ex) := by
      simp [crawl_single_page_once, hup, he]
    simp [retryGo, ho, hnr]

/-- C1: for every batch processed by `push_to_pool` (with the Redis and
forwarding collaborators not raising), the pool only grows by appended
new entries; an address already present in the pool keeps its score and
appears in no forwarding batch; an address of the input not yet pooled
ends with the default score and appears exactly once in the forwarded
batch; and exactly one forwarding call is made iff some input address is
new (none otherwise). -/
theorem claim_C1 (ds : Int) (g : Bool → Except Exc (Option String))
    (hg : String → Option String → Except Exc String) (pool : Pool) (ips : List Addr)
    (p : Pool) (evs : List Ev) (r : Except Exc Nat)
    (hres : push_to_pool (honest ds g hg) pool ips = (p, evs, r)) :
    (∃ ext, p = pool ++ ext) ∧
    (∀ a s, zscore pool a = some s →
       zscore p a = some s ∧ ∀ l, Ev.forward l ∈ evs → l.count a = 0) ∧
    (∀ a, a ∈ ips → zscore pool a = none →
       zscore p a = some ds ∧ ∃ l, Ev.forward l ∈ evs ∧ l.count a = 1) ∧
    (countForward evs = if (pushLoopPure ds pool ips).2 = [] then 0 else 1) ∧
    ((pushLoopPure ds pool ips).2 = [] ↔ ∀ a ∈ ips, (zscore pool a).isSome) := by
  have hp := push_to_pool_honest ds g hg pool ips
  rw [hres] at hp
  simp only [Prod.mk.injEq] at hp
  obtain ⟨h1, h2, h3⟩ := hp
  subst h1
  subst h2
  refine ⟨pushLoopPure_append ds ips pool, ?_, ?_, ?_,
    pushLoopPure_needs_nil_iff ds ips pool⟩
  · intro a s hsc
    obtain ⟨hz, hcnt⟩ := pushLoopPure_preserved ds ips pool a s hsc
    refine ⟨hz, ?_⟩
    intro l hl
    by_cases hni : (pushLoopPure ds pool ips).2.isEmpty
    · rw [if_pos hni] at hl
      simp at hl
    · rw [if_neg hni] at hl
      simp at hl
      subst hl
      exact hcnt
  · intro a hm hz
    obtain ⟨h1, h2⟩ := pushLoopPure_new ds ips pool a hz hm
    refine ⟨h1, ?_⟩
    have hne : (pushLoopPure ds pool ips).2 ≠ [] := by
      intro hnil
      rw [hnil] at h2
      simp at h2
    have hni : ¬(pushLoopPure ds pool ips).2.isEmpty := by
      simpa [List.isEmpty_iff] using hne
    refine ⟨(pushLoopPure ds pool ips).2, ?_, h2⟩
    rw [if_neg hni]
    simp
  · by_cases hni : (pushLoopPure ds pool ips).2.isEmpty
    · have hnil : (pushLoopPure ds pool ips).2 = [] := by
        simpa [List.isEmpty_iff] using hni
      rw [if_pos hni, if_pos hnil]
      simp [countForward, isForwardEv]
    · have hne : ¬(pushLoopPure ds pool ips).2 = [] := by
        simpa [List.isEmpty_iff] using hni
      rw [if_neg hni, if_neg hne]
      simp [countForward, isForwardEv]

theorem claim_C1_witness :
    zscore [("1.2.3.4:8080", 7), ("5.6.7.8:3128", 10)] "1.2.3.4:8080" = some 7 ∧
    zscore [("1.2.3.4:8080", 7), ("5.6.7.8:3128", 10)] "5.6.7.8:3128" = some 10 ∧
    (∃ l, Ev.forward l ∈ [Ev.forward ["5.6.7.8:3128"], Ev.logSendIp 1] ∧
       l.count "5.6.7.8:3128" = 1) ∧
    (∀ l, Ev.forward l ∈ [Ev.forward ["5.6.7.8:3128"], Ev.logSendIp 1] →
       l.count "1.2.3.4:8080" = 0) := by
  have h := claim_C1 10 griNone htOk [("1.2.3.4:8080", 7)]
    ["1.2.3.4:8080", "5.6.7.8:3128"]
    [("1.2.3.4:8080", 7), ("5.6.7.8:3128", 10)]
    [Ev.forward ["5.6.7.8:3128"], Ev.logSendIp 1] (.ok 2) rfl
  have hold := h.2.1 "1.2.3.4:8080" 7 (by decide)
  have hnew := h.2.2.1 "5.6.7.8:3128" (by decide) (by decide)
  exact ⟨hold.1, hnew.1, hnew.2, hold.2⟩

/-- C2 counterexample: with the address already pooled, `push_to_pool`
returns `ok 1` (the input length) although zero addresses were newly
discovered — the log line says 0 and no forwarding call is made — so the
return value is not the newly-discovered count. -/
theorem claim_C2_counterexample :
    (push_to_pool envHonest [("1.2.3.4:8080", 7)] ["1.2.3.4:8080"]).2.2 = .ok 1 ∧
    Ev.logSendIp 0 ∈ (push_to_pool envHonest [("1.2.3.4:8080", 7)] ["1.2.3.4:8080"]).2.1 ∧
    countForward (push_to_pool envHonest [("1.2.3.4:8080", 7)] ["1.2.3.4:8080"]).2.1 = 0 :=
  ⟨rfl, by decide, rfl⟩

/-- C2 (amended): `push_to_pool` returns the count of all submitted
addresses (the length of the input list); the count it logs is the
number of newly discovered addresses, i.e. of the input addresses not
already in the pool. -/
theorem claim_C2_amended (ds : Int) (g : Bool → Except Exc (Option String))
    (hg : String → Option String → Except Exc String) (pool : Pool) (ips : List Addr)
    (p : Pool) (evs : List Ev) (r : Except Exc Nat)
    (hres : push_to_pool (honest ds g hg) pool ips = (p, evs, r)) :
    r = .ok ips.length ∧
    Ev.logSendIp (pushLoopPure ds pool ips).2.length ∈ evs ∧
    ((pushLoopPure ds pool ips).2 = [] ↔ ∀ a ∈ ips, (zscore pool a).isSome) := by
  have hp := push_to_pool_honest ds g hg pool ips
  rw [hres] at hp
  simp only [Prod.mk.injEq] at hp
  obtain ⟨h1, h2, h3⟩ := hp
  refine ⟨h3, ?_, pushLoopPure_needs_nil_iff ds ips pool⟩
  rw [h2]
  by_cases hni : (pushLoopPure ds pool ips).2.isEmpty
  · have hnil : (pushLoopPure ds pool ips).2 = [] := by
      simpa [List.isEmpty_iff] using hni
    rw [if_pos hni, hnil]
    simp
  · rw [if_neg hni]
    simp

theorem claim_C2_amended_witness :
    (push_to_pool envHonest [("1.2.3.4:8080", 7)]
      ["1.2.3.4:8080", "5.6.7.8:3128"]).2.2 = .ok 2 ∧
    Ev.logSendIp 1 ∈ (push_to_pool envHonest [("1.2.3.4:8080", 7)]
      ["1.2.3.4:8080", "5.6.7.8:3128"]).2.1 := by
  have h := claim_C2_amended 10 griNone htOk [("1.2.3.4:8080", 7)]
    ["1.2.3.4:8080", "5.6.7.8:3128"]
    [("1.2.3.4:8080", 7), ("5.6.7.8:3128", 10)]
    [Ev.forward ["5.6.7.8:3128"], Ev.logSendIp 1] (.ok 2) rfl
  exact ⟨h.1, h.2.1⟩

/-- C3 counterexample: proxy selection happens before the `try` block of
`crawl_single_page`, so an exception raised by `IPFactory.get_random_ip`
escapes as itself and is not wrapped into the generic retryable failure
signal (`RetryException`). -/
theorem claim_C3_counterexample :
    (crawl_single_page_once psTwo envProxyFail false siteProxy "https://p1" []).2.2 =
      .error (.err "factory down") ∧
    isWrappedRetry
      (crawl_single_page_once psTwo envProxyFail false siteProxy "https://p1" []).2.2 =
      false :=
  ⟨rfl, rfl⟩

/-- C3 (amended): every exception raised inside the `try` of a
single-page fetch — the transport GET together with the body read, and
the empty-body check — is wrapped and re-raised as the generic retryable
failure carrying the original cause; an exception raised during proxy
selection (step 1) propagates unwrapped. -/
theorem claim_C3_amended (ps : Parsers) (env : Env) (tm : Bool) (site : SiteData)
    (page : String) (pool : Pool) :
    (∀ (proxy : Option String) (e : Exc),
       (if site.use_proxy then env.get_random_ip (page.startsWith "https")
        else Except.ok none) = .ok proxy →
       env.http_get page proxy = .error e →
       (crawl_single_page_once ps env tm site page pool).2.2 = .error (.retryExc e)) ∧
    (∀ (proxy : Option String),
       (if site.use_proxy then env.get_random_ip (page.startsWith "https")
        else Except.ok none) = .ok proxy →
       env.http_get page proxy = .ok "" →
       (crawl_single_page_once ps env tm site page pool).2.2 =
         .error (.retryExc (.emptyResponse "empty text"))) ∧
    (∀ (e : Exc), site.use_proxy = true →
       env.get_random_ip (page.startsWith "https") = .error e →
       (crawl_single_page_once ps env tm site page pool).2.2 = .error e) := by
  refine ⟨?_, ?_, ?_⟩
  · intro proxy e hsel hget
    simp [crawl_single_page_once, hsel, hget]
  · intro proxy hsel hget
    simp [crawl_single_page_once, hsel, hget]
  · intro e hup hsel
    simp [crawl_single_page_once, hup, hsel]

theorem claim_C3_amended_witness :
    (crawl_single_page_once psTwo envFetchFail false siteA "http://p1" []).2.2 =
      .error (.retryExc (.err "timeout")) ∧
    (crawl_single_page_once psTwo envProxyFail false siteProxy "https://p1" []).2.2 =
      .error (.err "factory down") := by
  have h := claim_C3_amended psTwo envFetchFail false siteA "http://p1" []
  have h2 := claim_C3_amended psTwo envProxyFail false siteProxy "https://p1" []
  exact ⟨h.1 none (.err "timeout") rfl rfl,
    h2.2.2 (.err "factory down") rfl rfl⟩

/-- C4: with the fetch failing retryably on every invocation, the retry
wrapper invokes the wrapped operation exactly the attempt budget
(`countFetch` counts invocations), in particular exactly
`MAX_RETRY_COUNT` times for `crawl_single_page`, and then raises
`MaxRetryException`; a non-retryable failure (here: one escaping proxy
selection) propagates immediately after a single invocation. -/
theorem claim_C4 (ps : Parsers) (env : Env) (tm : Bool) (site : SiteData) (page : String)
    (hnp : site.use_proxy = false)
    (hfail : ∀ pr, ∃ e, env.http_get page pr = .error e) :
    (∀ (n : Nat) (pool : Pool),
       countFetch (retryGo ps env tm site page n pool).2.1 = n ∧
       (retryGo ps env tm site page n pool).2.2 = .error .maxRetryExc) ∧
    (∀ pool : Pool,
       countFetch (crawl_single_page ps env tm site page pool).2.1 = MAX_RETRY_COUNT ∧
       (crawl_single_page ps env tm site page pool).2.2 = .error .maxRetryExc) ∧
    (∀ (env2 : Env) (site2 : SiteData) (ex : Exc), site2.use_proxy = true →
       env2.get_random_ip (page.startsWith "https") = .error ex →
       isRetryable ex = false →
       ∀ (n : Nat) (pool : Pool), 0 < n →
         retryGo ps env2 tm site2 page n pool =
           (pool, [Ev.fetchAttempt page], .error ex)) := by
  refine ⟨?_, ?_, ?_⟩
  · intro n pool
    obtain ⟨a, b, _⟩ := retryGo_exhausts ps env tm site page hnp hfail n pool
    exact ⟨a, b⟩
  · intro pool
    obtain ⟨a, b, _⟩ := retryGo_exhausts ps env tm site page hnp hfail MAX_RETRY_COUNT pool
    exact ⟨a, b⟩
  · intro env2 site2 ex hup he hnr n pool hn
    exact retryGo_immediate ps env2 tm site2 page ex hup he hnr n pool hn

theorem claim_C4_witness :
    countFetch (crawl_single_page psTwo envFetchFail false siteA "http://p1" []).2.1 = 3 ∧
    (crawl_single_page psTwo envFetchFail false siteA "http://p1" []).2.2 =
      .error .maxRetryExc ∧
    retryGo psTwo envProxyFail false siteProxy "https://p1" 3 [] =
      ([], [Ev.fetchAttempt "https://p1"], .error (.err "factory down")) := by
  have h := claim_C4 psTwo envFetchFail false siteA "http://p1" rfl
    (fun pr => ⟨.err "timeout", rfl⟩)
  have h2 := claim_C4 psTwo envFetchFail false siteA "https://p1" rfl
    (fun pr => ⟨.err "timeout", rfl⟩)
  exact ⟨(h.2.1 []).1, (h.2.1 []).2,
    h2.2.2 envProxyFail siteProxy (.err "factory down") rfl rfl rfl 3 [] (by decide)⟩

/-- C5: with a nonzero pacing interval, the page loop records exactly
one pacing sleep per page-loop iteration, whatever way each page visit
exits (success, retry exhaustion, or a propagating exception). -/
theorem claim_C5 (ps : Parsers) (env : Env) (tm : Bool) (site : SiteData)
    (hnz : site.page_interval ≠ 0) :
    ∀ (pages : List String) (pool : Pool),
      countSleep (crawl_site_pages ps env tm site pages pool).2.1 =
      countVisit (crawl_site_pages ps env tm site pages pool).2.1 := by
  intro pages
  induction pages with
  | nil => intro pool; simp [crawl_site_pages, countSleep, countVisit]
  | cons page rest ih =>
    intro pool
    rcases hcs : crawl_single_page ps env tm site page pool with ⟨p, evs, r⟩
    have hnl := retryGo_no_loop_events ps env tm site page MAX_RETRY_COUNT pool
    rw [show retryGo ps env tm site page MAX_RETRY_COUNT pool =
          crawl_single_page ps env tm site page pool from rfl, hcs] at hnl
    simp only at hnl
    obtain ⟨hs0, hv0, _⟩ := hnl
    obtain ⟨sv, _, ss, _, _⟩ := sleepEvs_counts site
    have hss : countSleep (sleepEvs site) = 1 := by rw [ss]; simp [hnz]
    have hih := ih p
    cases r with
    | ok u =>
      rw [crawl_site_pages_cons_ok ps env tm site page rest pool p evs u hcs]
      simp only [countSleep_append, countVisit_append, countSleep_cons, countVisit_cons,
        show isSleepEv (Ev.pageVisit page) = false from rfl,
        show isVisitEv (Ev.pageVisit page) = true from rfl,
        hs0, hv0, hss, sv, hih]
      simp
    | error ex =>
      by_cases hmx : ex = Exc.maxRetryExc
      · subst hmx
        rw [crawl_site_pages_cons_max ps env tm site page rest pool p evs hcs]
        simp only [countSleep_append, countVisit_append, countSleep_cons, countVisit_cons,
          show isSleepEv (Ev.pageVisit page) = false from rfl,
          show isVisitEv (Ev.pageVisit page) = true from rfl,
          show countSleep [Ev.logMaxRetrySkip page] = 0 from rfl,
          show countVisit [Ev.logMaxRetrySkip page] = 0 from rfl,
          hs0, hv0, hss, sv, hih]
        simp
      · rw [crawl_site_pages_cons_err ps env tm site page rest pool p evs ex hcs hmx]
        simp only [countSleep_append, countVisit_append, countSleep_cons, countVisit_cons,
          show isSleepEv (Ev.pageVisit page) = false from rfl,
          show isVisitEv (Ev.pageVisit page) = true from rfl,
          hs0, hv0, hss, sv]
        simp

theorem claim_C5_witness :
    countSleep (crawl_site_pages psTwo envFetchFail false siteA
      ["http://p1", "http://p2"] []).2.1 =
    countVisit (crawl_site_pages psTwo envFetchFail false siteA
      ["http://p1", "http://p2"] []).2.1 :=
  claim_C5 psTwo envFetchFail false siteA (by decide) ["http://p1", "http://p2"] []

/-- C6: when a page exhausts its retry budget, the page loop logs the
skip and the loop outcome is that of the remaining pages; when no
failure other than retry exhaustion occurs (proxy selection always
answers), every page of the source is visited and the pass visits every
enabled source, in order. -/
theorem claim_C6 (ps : Parsers) (env : Env) (tm : Bool) (site : SiteData)
    (hproxy : ∀ b, ∃ o, env.get_random_ip b = .ok o) :
    (∀ (page : String) (rest : List String) (pool p : Pool) (evs : List Ev),
       crawl_single_page ps env tm site page pool = (p, evs, .error .maxRetryExc) →
       Ev.logMaxRetrySkip page ∈
         (crawl_site_pages ps env tm site (page :: rest) pool).2.1 ∧
       (crawl_site_pages ps env tm site (page :: rest) pool).2.2 =
         (crawl_site_pages ps env tm site rest p).2.2) ∧
    (∀ (pages : List String) (pool : Pool),
       (crawl_site_pages ps env tm site pages pool).2.2 = none ∧
       countVisit (crawl_site_pages ps env tm site pages pool).2.1 = pages.length) ∧
    (∀ (sites : List SiteData) (pool : Pool),
       (start_crawl ps env tm sites pool).2.2 = none ∧
       visitedSites (start_crawl ps env tm sites pool).2.1 =
         (sites.filter fun s => s.enabled).map fun s => s.key) := by
  refine ⟨?_, ?_, fun sites pool => start_crawl_complete ps env tm hproxy sites pool⟩
  · intro page rest pool p evs hcs
    rw [crawl_site_pages_cons_max ps env tm site page rest pool p evs hcs]
    exact ⟨by simp, rfl⟩
  · intro pages pool
    obtain ⟨a, b, _⟩ := crawl_site_pages_complete ps env tm site hproxy pages pool
    exact ⟨a, b⟩

theorem claim_C6_witness :
    Ev.logMaxRetrySkip "http://p1" ∈
      (crawl_site_pages psTwo envFetchFail false siteA ["http://p1", "http://p2"] []).2.1 ∧
    (start_crawl psTwo envFetchFail false [siteA] []).2.2 = none := by
  have h := claim_C6 psTwo envFetchFail false siteA (fun b => ⟨none, rfl⟩)
  refine ⟨?_, (h.2.2 [siteA] []).1⟩
  exact (h.1 "http://p1" ["http://p2"] [] []
    [Ev.fetchAttempt "http://p1", Ev.logPageError "http://p1",
     Ev.fetchAttempt "http://p1", Ev.logPageError "http://p1",
     Ev.fetchAttempt "http://p1", Ev.logPageError "http://p1"] rfl).1

/-- C7: an always-raising parser is caught at the parse boundary: the
parse returns with the pool unchanged and only the error log line, and —
with every bound parser broken — the crawl pass still completes, visits
every enabled source and forwards nothing. -/
theorem claim_C7 (ps : Parsers) (env : Env) (tm : Bool) (pool : Pool) (key : String)
    (resp : SiteResponse) (parser : Parser)
    (hp : ps key = some parser)
    (hraise : ∀ r, ∃ e, parser r = .error e) :
    parse_site ps env tm pool key resp = (pool, [Ev.logParseError]) ∧
    (∀ (hbroken : ∀ k pr, ps k = some pr → ∀ r, ∃ e, pr r = .error e)
       (hproxy : ∀ b, ∃ o, env.get_random_ip b = .ok o)
       (sites : List SiteData) (pool2 : Pool),
       (start_crawl ps env tm sites pool2).2.2 = none ∧
       visitedSites (start_crawl ps env tm sites pool2).2.1 =
         (sites.filter fun s => s.enabled).map (fun s => s.key) ∧
       (start_crawl ps env tm sites pool2).1 = pool2 ∧
       countForward (start_crawl ps env tm sites pool2).2.1 = 0) := by
  constructor
  · obtain ⟨e, he⟩ := hraise resp
    simp [parse_site, hp, he]
  · intro hbroken hproxy sites pool2
    obtain ⟨a, b⟩ := start_crawl_complete ps env tm hproxy sites pool2
    obtain ⟨c, d⟩ := start_inert (parse_inert_of_broken ps env tm hbroken) sites pool2
    exact ⟨a, b, c, d⟩

theorem claim_C7_witness :
    parse_site psBoom envHonest false [] "src1" respA = ([], [Ev.logParseError]) ∧
    (start_crawl psBoom envHonest false [siteA] []).2.2 = none ∧
    (start_crawl psBoom envHonest false [siteA] []).1 = [] ∧
    countForward (start_crawl psBoom envHonest false [siteA] []).2.1 = 0 := by
  have h := claim_C7 psBoom envHonest false [] "src1" respA parserBoom rfl
    (fun r => ⟨.err "boom", rfl⟩)
  have hbroken : ∀ k pr, psBoom k = some pr → ∀ r, ∃ e, pr r = .error e := by
    intro k pr hk r
    by_cases hks : k = "src1"
    · simp [psBoom, hks] at hk
      exact ⟨.err "boom", by rw [← hk]; rfl⟩
    · simp [psBoom, hks] at hk
  obtain ⟨a, b, c, d⟩ := h.2 hbroken (fun b => ⟨none, rfl⟩) [siteA] []
  exact ⟨h.1, a, c, d⟩

/-- C8: a source key with no bound parser makes `parse_site` a silent
no-op for any response: the pool is unchanged and no event — no error,
no log, no forwarding — is produced. -/
theorem claim_C8 (ps : Parsers) (env : Env) (tm : Bool) (pool : Pool) (key : String)
    (resp : SiteResponse) (hnone : ps key = none) :
    parse_site ps env tm pool key resp = (pool, []) := by
  simp [parse_site, hnone]

theorem claim_C8_witness :
    parse_site psTwo envHonest false [("1.2.3.4:8080", 7)] "unknown" respA =
      ([("1.2.3.4:8080", 7)], []) :=
  claim_C8 psTwo envHonest false [("1.2.3.4:8080", 7)] "unknown" respA rfl

theorem applyOps_test_invariant (ps : Parsers) (env : Env) (configs : List SiteData) :
    ∀ (ops : List EngineOp) (st : EngineState) (pool : Pool), st.test_model = true →
      (applyOps ps env configs st pool ops).1.test_model = true ∧
      (applyOps ps env configs st pool ops).2.1 = pool ∧
      countForward (applyOps ps env configs st pool ops).2.2 = 0 := by
  intro ops
  induction ops with
  | nil => intro st pool hst; exact ⟨hst, rfl, rfl⟩
  | cons op rest ih =>
    intro st pool hst
    cases op with
    | opTestCrawl k l =>
      have hti := test_crawl_inert ps env configs st k l pool
      rcases ht : test_crawl ps env configs st k l pool with ⟨st', p', evs⟩
      rw [ht] at hti
      simp only at hti
      obtain ⟨t1, t2, t3⟩ := hti
      obtain ⟨r1, r2, r3⟩ := ih st' p' t1
      rcases har : applyOps ps env configs st' p' rest with ⟨st'', p'', evs'⟩
      rw [har] at r1 r2 r3
      simp only at r1 r2 r3
      simp only [applyOps, applyOp, ht, har]
      exact ⟨r1, r2.trans t2, by rw [countForward_append, t3, r3]⟩
    | opStartCrawl =>
      have hsi := start_inert (parse_inert_of_test_model ps env) configs pool
      rcases hs : start_crawl ps env true configs pool with ⟨p', evs, exc⟩
      rw [hs] at hsi
      simp only at hsi
      obtain ⟨s1, s2⟩ := hsi
      obtain ⟨r1, r2, r3⟩ := ih st p' hst
      rcases har : applyOps ps env configs st p' rest with ⟨st'', p'', evs'⟩
      rw [har] at r1 r2 r3
      simp only at r1 r2 r3
      simp only [applyOps, applyOp, hst, hs, har]
      exact ⟨r1, r2.trans s1, by rw [countForward_append, s2, r3]⟩

/-- C9: once `test_crawl` has set `_test_model` on the shared instance,
the flag stays `true` across any further sequence of engine operations,
and from that point on nothing is inserted into the pool and no batch is
ever forwarded to the validation service — parses only log. -/
theorem claim_C9 (ps : Parsers) (env : Env) (configs : List SiteData)
    (st : EngineState) (pool : Pool) (key : String) (limit : Nat)
    (ops : List EngineOp) :
    (applyOps ps env configs st pool
       (EngineOp.opTestCrawl key limit :: ops)).1.test_model = true ∧
    (applyOps ps env configs st pool
       (EngineOp.opTestCrawl key limit :: ops)).2.1 = pool ∧
    countForward (applyOps ps env configs st pool
       (EngineOp.opTestCrawl key limit :: ops)).2.2 = 0 := by
  have hti := test_crawl_inert ps env configs st key limit pool
  rcases ht : test_crawl ps env configs st key limit pool with ⟨st', p', evs⟩
  rw [ht] at hti
  simp only at hti
  obtain ⟨t1, t2, t3⟩ := hti
  obtain ⟨r1, r2, r3⟩ := applyOps_test_invariant ps env configs ops st' p' t1
  rcases har : applyOps ps env configs st' p' ops with ⟨st'', p'', evs'⟩
  rw [har] at r1 r2 r3
  simp only at r1 r2 r3
  simp only [applyOps, applyOp, ht, har]
  exact ⟨r1, r2.trans t2, by rw [countForward_append, t3, r3]⟩

theorem crawl_single_page_of_once_ok (ps : Parsers) (env : Env) (tm : Bool)
    (site : SiteData) (page : String) (pool p : Pool) (evs : List Ev) (u : Unit)
    (ho : crawl_single_page_once ps env tm site page pool = (p, evs, .ok u)) :
    crawl_single_page ps env tm site page pool =
      (p, Ev.fetchAttempt page :: evs, .ok u) := by
  show retryGo ps env tm site page MAX_RETRY_COUNT pool = _
  rw [show MAX_RETRY_COUNT = Nat.succ 2 from rfl]
  simp [retryGo, ho]

/-- C10: failures while saving or forwarding parse results are caught at
the parse boundary: whenever proxy selection and the fetch succeed with
a non-empty body, the page visit returns success after exactly one
invocation of the fetch body, whatever the pool or forwarding
collaborators do; concretely, a Redis lookup failure on the second
address of a two-address batch leaves the first address inserted, logs
the error, and never invokes the forwarding call. -/
theorem claim_C10 (ps : Parsers) (env : Env) (tm : Bool) (site : SiteData)
    (page : String) (pool : Pool) (proxy : Option String) (text : String)
    (hsel : (if site.use_proxy then env.get_random_ip (page.startsWith "https")
             else Except.ok none) = .ok proxy)
    (hget : env.http_get page proxy = .ok text) (hne : text ≠ "") :
    (crawl_single_page ps env tm site page pool).2.2 = .ok () ∧
    countFetch (crawl_single_page ps env tm site page pool).2.1 = 1 ∧
    parse_site psTwo envRedisFail false [] "src1" respA =
      ([("1.1.1.1:80", 10)], [Ev.logNewIp 2, Ev.logParseError]) := by
  have ho : crawl_single_page_once ps env tm site page pool =
      ((parse_site ps env tm pool site.key { text := text, url := page }).1,
       (parse_site ps env tm pool site.key { text := text, url := page }).2, .ok ()) := by
    simp [crawl_single_page_once, hsel, hget, hne]
  have hcf := once_count_fetch ps env tm site page pool
  rw [ho] at hcf
  simp only at hcf
  have hcs := crawl_single_page_of_once_ok ps env tm site page pool _ _ () ho
  refine ⟨?_, ?_, ?_⟩
  · rw [hcs]
  · rw [hcs]
    rw [countFetch_cons, hcf, show isFetchEv (Ev.fetchAttempt page) = true from rfl]
    simp
  · rfl

theorem claim_C10_witness :
    (crawl_single_page psTwo envHonest false siteA "http://p1" []).2.2 = .ok () ∧
    countFetch (crawl_single_page psTwo envHonest false siteA "http://p1" []).2.1 = 1 := by
  have h := claim_C10 psTwo envHonest false siteA "http://p1" [] none
    "<html>1.2.3.4:8080</html>" rfl rfl (by decide)
  exact ⟨h.1, h.2.1⟩

end IPGet
